import Mathlib

/-!
Shallow embedding of the MPE synthesiser voice-allocation engine
(juce_MPESynthesiser.cpp): the note/voice data model, the voice-stealing
heuristic `findVoiceToSteal`, the allocator `findFreeVoice`, the note
lifecycle handlers and the pool management operations, together with
theorems about the stealing priorities, determinism, idempotent silence,
monotone activation order and totality of the stealing heuristic.
-/

namespace MPE

/-- Key state of a note: whether a physical or virtual key is held and/or
the note is sustained (the four-valued `MPENote::KeyState`). -/
inductive KeyState
  | off
  | down
  | sustained
  | downAndSustained
deriving DecidableEq, Repr

/-- Modelled from the spec: the `MPENote` snapshot class is not among the
reviewed sources (only its user `MPESynthesiser` is), so its fields follow
the spec's data model: `initialNote` is the integer identity of the note,
`keyState` the four-valued key state, `pressure`/`pitchbend`/`timbre` the
continuous controls, `noteOffVelocity` set at release.  `valid` models
`MPENote::isValid()`: whether a specific incoming note identity is given
(the default-constructed note passed by `reduceNumVoices` is invalid). -/
structure MPENote where
  initialNote : Int
  keyState : KeyState
  pressure : Int
  pitchbend : Int
  timbre : Int
  noteOffVelocity : Int
  valid : Bool
deriving DecidableEq, Repr

/-- One per-voice lifecycle hook invocation, recorded so that theorems can
speak about which hooks a handler invoked on which voice. -/
inductive Hook
  | started
  | stopped (allowTailOff : Bool)
  | pressureChanged
  | pitchbendChanged
  | timbreChanged
  | keyStateChanged
deriving DecidableEq, Repr

/-- Modelled from the spec: the `MPESynthesiserVoice` class is not among the
reviewed sources, so a voice carries the state the spec's data model gives
it: the assigned note snapshot (`currentlyPlayingNote`), the activation
order stamp (`noteOnTime`), the `isActive` flag (`active`), the
`isPlayingButReleased` flag (`released`), plus a log of the lifecycle hooks
the engine invoked on it. -/
structure Voice where
  currentlyPlayingNote : MPENote
  noteOnTime : Nat
  active : Bool
  released : Bool
  hookLog : List Hook
deriving DecidableEq, Repr

/-- Modelled from the spec: the voice start hook (`noteStarted`); per the
spec a voice is active once started. -/
def Voice.noteStarted (v : Voice) : Voice :=
  { v with active := true, released := false, hookLog := v.hookLog ++ [Hook.started] }

/-- Modelled from the spec: the voice stop hook (`noteStopped`); per the
spec a voice is released once stopped, and the spec's idempotent-silence
property treats a stopped voice as inactive in the pool's observable state
(tail-off audio is out of scope). -/
def Voice.noteStopped (allowTailOff : Bool) (v : Voice) : Voice :=
  { v with active := false, released := true,
           hookLog := v.hookLog ++ [Hook.stopped allowTailOff] }

/-- Modelled from the spec: `MPESynthesiserVoice::isCurrentlyPlayingNote`
is not among the reviewed sources; per the spec, a note matches a voice's
assigned note by note identity, and `initialNote` is the identity used as
the primary matching key. -/
def Voice.isCurrentlyPlayingNote (v : Voice) (n : MPENote) : Bool :=
  v.currentlyPlayingNote.initialNote == n.initialNote

/-- The engine state: the ordered voice pool, the global monotonic
activation counter (`lastNoteOnCounter`), the stealing flag
(`shouldStealVoices`) and — modelled from the spec — the set of notes the
upstream note-producer (`instrument`) is tracking, which
`instrument.releaseAllNotes()` clears. -/
structure Synth where
  voices : List Voice
  lastNoteOnCounter : Nat
  shouldStealVoices : Bool
  instrumentNotes : List MPENote
deriving DecidableEq, Repr

/-- Update the voice at pool index `i` (identity elsewhere). -/
def updateAt (i : Nat) (f : Voice → Voice) : List Voice → List Voice
  | [] => []
  | v :: vs =>
    match i with
    | 0 => f v :: vs
    | n + 1 => v :: updateAt n f vs

/-- `startVoice`: assign the note, stamp `noteOnTime` from the global
counter, increment the counter and invoke the voice's start hook. -/
def startVoice (s : Synth) (i : Nat) (noteToStart : MPENote) : Synth :=
  { s with
    voices := updateAt i
      (fun v => Voice.noteStarted
        { v with currentlyPlayingNote := noteToStart, noteOnTime := s.lastNoteOnCounter })
      s.voices,
    lastNoteOnCounter := s.lastNoteOnCounter + 1 }

/-- Pool index of the first voice with `isActive() == false`
(the linear idle-voice scan of `findFreeVoice`). -/
def firstInactive : List Voice → Option Nat
  | [] => none
  | v :: vs => if v.active then (firstInactive vs).map (· + 1) else some 0

/-- The pool paired with pool indices, starting at `k`; indices stand for
the C++ voice pointers, so pointer equality is index equality. -/
def indexedFrom (k : Nat) : List Voice → List (Nat × Voice)
  | [] => []
  | v :: vs => (k, v) :: indexedFrom (k + 1) vs

/-- The pool paired with its pool indices. -/
def indexed (l : List Voice) : List (Nat × Voice) := indexedFrom 0 l

/-- Insert one entry into a list kept ascending by `noteOnTime`. -/
def insertByTime (p : Nat × Voice) : List (Nat × Voice) → List (Nat × Voice)
  | [] => [p]
  | q :: qs =>
    if p.2.noteOnTime < q.2.noteOnTime then p :: q :: qs else q :: insertByTime p qs

/-- The scratch array `usableVoicesToStealArray` after the collection loop:
every voice, sorted ascending by `noteOnTime` (the loop re-sorts with
`std::sort` under `a->noteOnTime < b->noteOnTime` after every insertion;
the net result is the fully sorted array). -/
def sortByTime : List (Nat × Voice) → List (Nat × Voice)
  | [] => []
  | p :: ps => insertByTime p (sortByTime ps)

/-- The `low`/`top` protection scan of `findVoiceToSteal`: iterating the
pool in order, skip released voices; `low` is the first voice holding the
strictly lowest `initialNote` so far, `top` the first holding the strictly
highest. -/
def scanLowTop :
    List (Nat × Voice) → Option (Nat × Voice) → Option (Nat × Voice) →
    Option (Nat × Voice) × Option (Nat × Voice)
  | [], lo, tp => (lo, tp)
  | p :: ps, lo, tp =>
    if p.2.released then scanLowTop ps lo tp
    else
      scanLowTop ps
        (match lo with
         | none => some p
         | some q =>
           if p.2.currentlyPlayingNote.initialNote < q.2.currentlyPlayingNote.initialNote
           then some p else some q)
        (match tp with
         | none => some p
         | some q =>
           if p.2.currentlyPlayingNote.initialNote > q.2.currentlyPlayingNote.initialNote
           then some p else some q)

/-- The protected pair after eliminating the pathological case
(`if (top == low) top = nullptr`): when `top` and `low` resolved to the
same voice — pointer equality, i.e. equality of the pool indices (both
null also compares equal, where clearing is a no-op) — `top` is cleared. -/
def protectedLowTop (l : List (Nat × Voice)) : Option (Nat × Voice) × Option (Nat × Voice) :=
  let lo := (scanLowTop l none none).1
  let tp := (scanLowTop l none none).2
  (lo, if tp.map (·.1) = lo.map (·.1) then none else tp)

/-- Pointer comparison `voice == low` / `voice == top` (index equality). -/
def sameAs (o : Option (Nat × Voice)) (p : Nat × Voice) : Bool :=
  match o with
  | none => false
  | some a => a.1 == p.1

/-- A candidate is protected when it is the `low` or the `top` voice. -/
def isProtected (lo tp : Option (Nat × Voice)) (p : Nat × Voice) : Bool :=
  sameAs lo p || sameAs tp p

/-- Same-pitch bucket: the first (hence oldest) sorted candidate already
sounding the incoming note's `initialNote`, when a valid note is given. -/
def stealSamePitch (usable : List (Nat × Voice)) (note : MPENote) : Option Nat :=
  if note.valid then
    (usable.find? fun p => p.2.currentlyPlayingNote.initialNote == note.initialNote).map (·.1)
  else none

/-- Released bucket: the oldest unprotected candidate that is playing but
released. -/
def stealReleased (usable : List (Nat × Voice)) (lo tp : Option (Nat × Voice)) : Option Nat :=
  (usable.find? fun p => !isProtected lo tp p && p.2.released).map (·.1)

/-- Key-not-held bucket: the oldest unprotected candidate whose key state
is neither `keyDown` nor `keyDownAndSustained`. -/
def stealNoKeyDown (usable : List (Nat × Voice)) (lo tp : Option (Nat × Voice)) : Option Nat :=
  (usable.find? fun p => !isProtected lo tp p
      && !(p.2.currentlyPlayingNote.keyState == KeyState.down)
      && !(p.2.currentlyPlayingNote.keyState == KeyState.downAndSustained)).map (·.1)

/-- Unprotected bucket: the oldest candidate that is not `low`/`top`. -/
def stealUnprotected (usable : List (Nat × Voice)) (lo tp : Option (Nat × Voice)) : Option Nat :=
  (usable.find? fun p => !isProtected lo tp p).map (·.1)

/-- `findVoiceToSteal`: build the age-sorted candidate array and the
`low`/`top` protected pair, then return the first hit among the priority
buckets — same pitch, released, key not held, unprotected — and, when only
protected voices remain, `top` if it exists, else `low`. -/
def findVoiceToSteal (voices : List Voice) (noteToStealVoiceFor : MPENote) : Option Nat :=
  let usable := sortByTime (indexed voices)
  let lt := protectedLowTop (indexed voices)
  (stealSamePitch usable noteToStealVoiceFor).orElse fun _ =>
  (stealReleased usable lt.1 lt.2).orElse fun _ =>
  (stealNoKeyDown usable lt.1 lt.2).orElse fun _ =>
  (stealUnprotected usable lt.1 lt.2).orElse fun _ =>
  match lt.2 with
  | some b => some b.1
  | none => lt.1.map (·.1)

/-- `findFreeVoice`: first idle voice in pool order, else delegate to the
stealing heuristic when allowed, else no voice. -/
def findFreeVoice (voices : List Voice) (noteToFindVoiceFor : MPENote)
    (stealIfNoneAvailable : Bool) : Option Nat :=
  match firstInactive voices with
  | some i => some i
  | none =>
    if stealIfNoneAvailable then findVoiceToSteal voices noteToFindVoiceFor else none

/-- `noteAdded`: acquire a voice via `findFreeVoice`; start it when one is
obtained, otherwise drop the note silently. -/
def noteAdded (newNote : MPENote) (s : Synth) : Synth :=
  match findFreeVoice s.voices newNote s.shouldStealVoices with
  | some i => startVoice s i newNote
  | none => s

/-- The four per-note control-change events handled by the dispatcher. -/
inductive CtrlKind
  | pressure
  | pitchbend
  | timbre
  | key
deriving DecidableEq, Repr

/-- The per-voice hook each control-change handler invokes. -/
def ctrlHook : CtrlKind → Hook
  | CtrlKind.pressure => Hook.pressureChanged
  | CtrlKind.pitchbend => Hook.pitchbendChanged
  | CtrlKind.timbre => Hook.timbreChanged
  | CtrlKind.key => Hook.keyStateChanged

/-- Shared body of the four control-change handlers: for every voice whose
assigned note matches the changed note, update the snapshot and invoke the
given hook; leave every other voice untouched. -/
def ctrlScan (hk : Hook) (changedNote : MPENote) (vs : List Voice) : List Voice :=
  vs.map fun v =>
    if v.isCurrentlyPlayingNote changedNote then
      { v with currentlyPlayingNote := changedNote, hookLog := v.hookLog ++ [hk] }
    else v

/-- `notePressureChanged`. -/
def notePressureChanged (changedNote : MPENote) (s : Synth) : Synth :=
  { s with voices := ctrlScan Hook.pressureChanged changedNote s.voices }

/-- `notePitchbendChanged`. -/
def notePitchbendChanged (changedNote : MPENote) (s : Synth) : Synth :=
  { s with voices := ctrlScan Hook.pitchbendChanged changedNote s.voices }

/-- `noteTimbreChanged`. -/
def noteTimbreChanged (changedNote : MPENote) (s : Synth) : Synth :=
  { s with voices := ctrlScan Hook.timbreChanged changedNote s.voices }

/-- `noteKeyStateChanged`. -/
def noteKeyStateChanged (changedNote : MPENote) (s : Synth) : Synth :=
  { s with voices := ctrlScan Hook.keyStateChanged changedNote s.voices }

/-- Dispatch one of the four control-change handlers. -/
def applyCtrl : CtrlKind → MPENote → Synth → Synth
  | CtrlKind.pressure => notePressureChanged
  | CtrlKind.pitchbend => notePitchbendChanged
  | CtrlKind.timbre => noteTimbreChanged
  | CtrlKind.key => noteKeyStateChanged

/-- `turnOffAllVoices`: force every voice's note to a synthetic off
snapshot (`noteOffVelocity` = `MPEValue::from7BitInt(64)`, key state off)
and invoke its stop hook; then have the instrument release all notes it is
tracking. -/
def turnOffAllVoices (allowTailOff : Bool) (s : Synth) : Synth :=
  { s with
    voices := s.voices.map fun v =>
      Voice.noteStopped allowTailOff
        { v with currentlyPlayingNote :=
            { v.currentlyPlayingNote with noteOffVelocity := 64, keyState := KeyState.off } },
    instrumentNotes := [] }

/-- The default-constructed `MPENote {}` that `reduceNumVoices` passes to
`findFreeVoice`: no specific note identity, hence invalid. -/
def invalidNote : MPENote :=
  { initialNote := 0, keyState := KeyState.off, pressure := 0, pitchbend := 0,
    timbre := 0, noteOffVelocity := 0, valid := false }

/-- The `reduceNumVoices` loop, with fuel bounding the iterations (each
iteration removes one voice, so the initial pool size suffices): while the
pool exceeds the target, remove the voice `findFreeVoice({}, true)` picks,
else fall back to removing the earliest-inserted voice.  The second
component records whether the last-resort fallback branch was ever taken. -/
def reduceLoop (target : Nat) : Nat → List Voice → List Voice × Bool
  | 0, vs => (vs, false)
  | fuel + 1, vs =>
    if vs.length ≤ target then (vs, false)
    else
      match findFreeVoice vs invalidNote true with
      | some i =>
        let r := reduceLoop target fuel (vs.eraseIdx i)
        (r.1, r.2)
      | none =>
        let r := reduceLoop target fuel (vs.eraseIdx 0)
        (r.1, true)

/-- `reduceNumVoices`. -/
def reduceNumVoices (newNumVoices : Nat) (s : Synth) : Synth :=
  { s with voices := (reduceLoop newNumVoices s.voices.length s.voices).1 }

/-- A sequence of note-start events driven through `noteAdded`. -/
def noteAdds (s : Synth) : List MPENote → Synth
  | [] => s
  | n :: ns => noteAdds (noteAdded n s) ns

/-- The activation-order stamps consumed by a sequence of note-starts: at
each start that obtains a voice, the global counter value stamped onto it. -/
def stampTrace (s : Synth) : List MPENote → List Nat
  | [] => []
  | n :: ns =>
    match findFreeVoice s.voices n s.shouldStealVoices with
    | some _ => s.lastNoteOnCounter :: stampTrace (noteAdded n s) ns
    | none => stampTrace (noteAdded n s) ns

/-- Each start of the sequence finds an idle voice (so obtains a voice
without stealing). -/
def obtainsFreeAll (s : Synth) : List MPENote → Bool
  | [] => true
  | n :: ns => (firstInactive s.voices).isSome && obtainsFreeAll (noteAdded n s) ns

/-- The observable state of a voice: its assigned note snapshot and its
activity flags (the hook log is bookkeeping, not pool state). -/
def Voice.observable (v : Voice) : MPENote × Bool × Bool :=
  (v.currentlyPlayingNote, v.active, v.released)

/-! ### Helper lemmas about indexing and the age-sorted candidate list -/

/-- Ascending-`noteOnTime` order on indexed candidates. -/
def timeLE (p q : Nat × Voice) : Prop := p.2.noteOnTime ≤ q.2.noteOnTime

theorem mem_indexedFrom_elim :
    ∀ (l : List Voice) (k : Nat) (p : Nat × Voice), p ∈ indexedFrom k l →
      ∃ j, ∃ h : j < l.length, p.1 = k + j ∧ l.get ⟨j, h⟩ = p.2 := by
  intro l
  induction l with
  | nil => intro k p h; simp [indexedFrom] at h
  | cons v vs ih =>
    intro k p h
    simp only [indexedFrom, List.mem_cons] at h
    rcases h with h | h
    · exact ⟨0, Nat.succ_pos _, by simp [h]⟩
    · obtain ⟨j, hj, hk, hget⟩ := ih (k + 1) p h
      refine ⟨j + 1, Nat.succ_lt_succ hj, by omega, ?_⟩
      simpa using hget

theorem mem_indexedFrom_intro :
    ∀ (l : List Voice) (k j : Nat) (h : j < l.length),
      (k + j, l.get ⟨j, h⟩) ∈ indexedFrom k l := by
  intro l
  induction l with
  | nil => intro k j h; exact absurd h (Nat.not_lt_zero j)
  | cons v vs ih =>
    intro k j h
    match j with
    | 0 => simp [indexedFrom]
    | j + 1 =>
      have h' : j < vs.length := Nat.lt_of_succ_lt_succ h
      have := ih (k + 1) j h'
      simp only [indexedFrom, List.mem_cons]
      right
      have hkj : k + (j + 1) = k + 1 + j := by omega
      rw [hkj]
      simpa using this

theorem mem_indexed_elim {l : List Voice} {p : Nat × Voice} (h : p ∈ indexed l) :
    ∃ hb : p.1 < l.length, l.get ⟨p.1, hb⟩ = p.2 := by
  obtain ⟨j, hj, hk, hget⟩ := mem_indexedFrom_elim l 0 p h
  have : p.1 = j := by omega
  subst this
  exact ⟨hj, hget⟩

theorem mem_indexed_intro {l : List Voice} (j : Nat) (h : j < l.length) :
    (j, l.get ⟨j, h⟩) ∈ indexed l := by
  have := mem_indexedFrom_intro l 0 j h
  simpa [indexed] using this

theorem exists_indexed_of_mem {l : List Voice} {v : Voice} (h : v ∈ l) :
    ∃ j, ∃ hb : j < l.length, l.get ⟨j, hb⟩ = v ∧ (j, v) ∈ indexed l := by
  obtain ⟨⟨j, hj⟩, hget⟩ := List.mem_iff_get.mp h
  refine ⟨j, hj, hget, ?_⟩
  rw [← hget]
  exact mem_indexed_intro j hj

theorem snd_mem_of_mem_indexed {l : List Voice} {p : Nat × Voice} (h : p ∈ indexed l) :
    p.2 ∈ l := by
  obtain ⟨hb, hget⟩ := mem_indexed_elim h
  exact hget ▸ List.get_mem l p.1 hb

theorem insertByTime_perm (p : Nat × Voice) :
    ∀ l : List (Nat × Voice), List.Perm (insertByTime p l) (p :: l) := by
  intro l
  induction l with
  | nil => simp [insertByTime]
  | cons q qs ih =>
    by_cases h : p.2.noteOnTime < q.2.noteOnTime
    · simp [insertByTime, h]
    · simp only [insertByTime, if_neg h]
      exact (ih.cons q).trans (List.Perm.swap p q qs)

theorem sortByTime_perm : ∀ l : List (Nat × Voice), List.Perm (sortByTime l) l := by
  intro l
  induction l with
  | nil => simp [sortByTime]
  | cons p ps ih =>
    exact (insertByTime_perm p (sortByTime ps)).trans (ih.cons p)

theorem mem_sortByTime {l : List (Nat × Voice)} {p : Nat × Voice} :
    p ∈ sortByTime l ↔ p ∈ l :=
  (sortByTime_perm l).mem_iff

theorem sorted_insertByTime (p : Nat × Voice) :
    ∀ l : List (Nat × Voice), List.Sorted timeLE l → List.Sorted timeLE (insertByTime p l) := by
  intro l
  induction l with
  | nil => intro _; simp [insertByTime, timeLE]
  | cons q qs ih =>
    intro hs
    rw [List.sorted_cons] at hs
    obtain ⟨hq, hqs⟩ := hs
    by_cases h : p.2.noteOnTime < q.2.noteOnTime
    · simp only [insertByTime, if_pos h]
      rw [List.sorted_cons]
      constructor
      · intro b hb
        rcases List.mem_cons.mp hb with hb | hb
        · exact hb ▸ Nat.le_of_lt h
        · exact Nat.le_trans (Nat.le_of_lt h) (hq b hb)
      · rw [List.sorted_cons]; exact ⟨hq, hqs⟩
    · simp only [insertByTime, if_neg h]
      rw [List.sorted_cons]
      constructor
      · intro b hb
        rcases List.mem_cons.mp ((insertByTime_perm p qs).mem_iff.mp hb) with hb | hb
        · exact hb ▸ Nat.le_of_not_lt h
        · exact hq b hb
      · exact ih hqs

theorem sorted_sortByTime : ∀ l : List (Nat × Voice), List.Sorted timeLE (sortByTime l) := by
  intro l
  induction l with
  | nil => simp [sortByTime]
  | cons p ps ih => exact sorted_insertByTime p (sortByTime ps) ih

theorem find?_min_of_sorted {q : Nat × Voice → Bool} {a : Nat × Voice} :
    ∀ l : List (Nat × Voice), List.Sorted timeLE l → l.find? q = some a →
      ∀ b ∈ l, q b = true → a.2.noteOnTime ≤ b.2.noteOnTime := by
  intro l
  induction l with
  | nil => intro _ h; simp at h
  | cons x xs ih =>
    intro hs hf b hb hqb
    rw [List.sorted_cons] at hs
    obtain ⟨hx, hxs⟩ := hs
    by_cases hqx : q x = true
    · rw [List.find?_cons_of_pos _ hqx] at hf
      have hax : a = x := (Option.some.inj hf).symm
      rcases List.mem_cons.mp hb with hb | hb
      · rw [hax, hb]
      · exact hax ▸ hx b hb
    · rw [List.find?_cons_of_neg _ hqx] at hf
      rcases List.mem_cons.mp hb with hb | hb
      · exact absurd (hb ▸ hqb) hqx
      · exact ih hxs hf b hb hqb

theorem find?_mem_of_sorted {q : Nat × Voice → Bool} {a : Nat × Voice}
    {l : List (Nat × Voice)} (hf : l.find? q = some a) : a ∈ l ∧ q a = true :=
  ⟨List.mem_of_find?_eq_some hf, List.find?_some hf⟩

theorem findVoiceToSteal_samePitch_some {voices : List Voice} {note : MPENote} {j : Nat}
    (h : stealSamePitch (sortByTime (indexed voices)) note = some j) :
    findVoiceToSteal voices note = some j := by
  simp [findVoiceToSteal, h, Option.orElse]

theorem findVoiceToSteal_fallback (voices : List Voice) (note : MPENote)
    (h1 : stealSamePitch (sortByTime (indexed voices)) note = none)
    (h2 : stealReleased (sortByTime (indexed voices))
            (protectedLowTop (indexed voices)).1 (protectedLowTop (indexed voices)).2 = none)
    (h3 : stealNoKeyDown (sortByTime (indexed voices))
            (protectedLowTop (indexed voices)).1 (protectedLowTop (indexed voices)).2 = none)
    (h4 : stealUnprotected (sortByTime (indexed voices))
            (protectedLowTop (indexed voices)).1 (protectedLowTop (indexed voices)).2 = none) :
    findVoiceToSteal voices note =
      (match (protectedLowTop (indexed voices)).2 with
       | some b => some b.1
       | none => (protectedLowTop (indexed voices)).1.map (·.1)) := by
  simp [findVoiceToSteal, h1, h2, h3, h4, Option.orElse]

/-! ### Concrete notes, voices and pools used in witnesses -/

/-- A valid-or-invalid note at the given pitch and key state, all
continuous controls zero. -/
def mkNote (p : Int) (ks : KeyState) (v : Bool) : MPENote :=
  { initialNote := p, keyState := ks, pressure := 0, pitchbend := 0, timbre := 0,
    noteOffVelocity := 0, valid := v }

/-- An active voice holding the given pitch, with the given activation
stamp, key state and released flag. -/
def mkVoice (p : Int) (t : Nat) (ks : KeyState) (rel : Bool) : Voice :=
  { currentlyPlayingNote := mkNote p ks true, noteOnTime := t, active := true,
    released := rel, hookLog := [] }

/-- The extremal-protection scenario: three active, unreleased, key-down
voices holding 40, 60 and 80, activated in that order. -/
def extremalPool : List Voice :=
  [mkVoice 40 0 KeyState.down false, mkVoice 60 1 KeyState.down false,
   mkVoice 80 2 KeyState.down false]

/-! ### Claim theorems -/

/-- C1, counterexample: in the extremal-protection scenario (active,
unreleased, key-down voices holding 40, 60 and 80, incoming valid note 50
with no same-pitch match), `findVoiceToSteal` returns pool index 1 — the
voice holding 60 — and not pool index 2, the voice holding 80 that the
claim says must be returned. -/
theorem C1_counterexample :
    findVoiceToSteal extremalPool (mkNote 50 KeyState.down true) = some 1 ∧
    ¬ findVoiceToSteal extremalPool (mkNote 50 KeyState.down true) = some 2 := by
  decide

/-- C1, amended: for a pool of exactly three active, unreleased voices
whose notes have `initialNote` 40, 60 and 80, with no voice released,
every key held down, and no same-pitch match for the incoming note,
`findVoiceToSteal` returns the voice holding 60 — the only unprotected
voice — and never the voice holding 40 (the protected low) or the voice
holding 80 (the protected top). -/
theorem C1_extremal_protection (p : Int) (h40 : p ≠ 40) (h60 : p ≠ 60) (h80 : p ≠ 80) :
    findVoiceToSteal extremalPool (mkNote p KeyState.down true) = some 1 := by
  have e40 : ((40 : Int) == p) = false := by
    simp [Ne.symm h40]
  have e60 : ((60 : Int) == p) = false := by
    simp [Ne.symm h60]
  have e80 : ((80 : Int) == p) = false := by
    simp [Ne.symm h80]
  simp [findVoiceToSteal, extremalPool, mkVoice, mkNote, indexed, indexedFrom,
        sortByTime, insertByTime, protectedLowTop, scanLowTop, stealSamePitch,
        stealReleased, stealNoKeyDown, stealUnprotected, isProtected, sameAs,
        Option.orElse, List.find?, e40, e60, e80]

/-- C1, witness for the amended theorem: the incoming note 50 differs from
40, 60 and 80, and the voice holding 60 (pool index 1) is stolen. -/
theorem C1_extremal_protection_witness :
    findVoiceToSteal extremalPool (mkNote 50 KeyState.down true) = some 1 :=
  C1_extremal_protection 50 (by decide) (by decide) (by decide)

/-- C2: for every pool and every valid incoming note, if some voice is
already sounding the same `initialNote` as the incoming note, then
`findVoiceToSteal` returns a same-pitch voice whose `noteOnTime` is
minimal among all same-pitch voices (the oldest such voice) — before any
other stealing rule, in particular regardless of which voices are
released. -/
theorem C2_same_pitch_preference (voices : List Voice) (note : MPENote)
    (hval : note.valid = true)
    (hmatch : ∃ v ∈ voices, v.currentlyPlayingNote.initialNote = note.initialNote) :
    ∃ i, findVoiceToSteal voices note = some i ∧
      ∃ hb : i < voices.length,
        (voices.get ⟨i, hb⟩).currentlyPlayingNote.initialNote = note.initialNote ∧
        ∀ v ∈ voices, v.currentlyPlayingNote.initialNote = note.initialNote →
          (voices.get ⟨i, hb⟩).noteOnTime ≤ v.noteOnTime := by
  obtain ⟨v, hv, hpitch⟩ := hmatch
  obtain ⟨j, hj, hget, hmem⟩ := exists_indexed_of_mem hv
  have hmemu : (j, v) ∈ sortByTime (indexed voices) := mem_sortByTime.mpr hmem
  set q : Nat × Voice → Bool :=
    fun p => p.2.currentlyPlayingNote.initialNote == note.initialNote with hq
  have hfind : (sortByTime (indexed voices)).find? q ≠ none := by
    intro hnone
    have := List.find?_eq_none.mp hnone (j, v) hmemu
    simp [hq, hpitch] at this
  rcases hfa : (sortByTime (indexed voices)).find? q with _ | a
  · exact absurd hfa hfind
  obtain ⟨hamem, haq⟩ := find?_mem_of_sorted hfa
  obtain ⟨hab, hagete⟩ := mem_indexed_elim (mem_sortByTime.mp hamem)
  have hsteal : stealSamePitch (sortByTime (indexed voices)) note = some a.1 := by
    unfold stealSamePitch
    rw [hval]
    simp only [if_true, hfa, Option.map_some']
  refine ⟨a.1, findVoiceToSteal_samePitch_some hsteal, hab, ?_, ?_⟩
  · rw [hagete]
    simpa [hq] using haq
  · intro w hw hwpitch
    obtain ⟨j', hj', hget', hmem'⟩ := exists_indexed_of_mem hw
    have hwq : q (j', w) = true := by simp [hq, hwpitch]
    have := find?_min_of_sorted (sortByTime (indexed voices))
      (sorted_sortByTime (indexed voices)) hfa (j', w) (mem_sortByTime.mpr hmem') hwq
    rw [hagete]
    exact this

/-- C2, witness: the spec's own example — two active voices holding 60
(pool indices 0 and 1, the one at index 0 older) and a released voice
holding 61; stealing for a new note 60 returns the older 60-holder. -/
theorem C2_same_pitch_preference_witness :
    ∃ i, findVoiceToSteal
        [mkVoice 60 0 KeyState.down false, mkVoice 60 1 KeyState.down false,
         mkVoice 61 2 KeyState.off true] (mkNote 60 KeyState.down true) = some i ∧
      ∃ hb : i < ([mkVoice 60 0 KeyState.down false, mkVoice 60 1 KeyState.down false,
         mkVoice 61 2 KeyState.off true] : List Voice).length,
        (([mkVoice 60 0 KeyState.down false, mkVoice 60 1 KeyState.down false,
         mkVoice 61 2 KeyState.off true] : List Voice).get ⟨i, hb⟩).currentlyPlayingNote.initialNote
            = (mkNote 60 KeyState.down true).initialNote ∧
        ∀ v ∈ ([mkVoice 60 0 KeyState.down false, mkVoice 60 1 KeyState.down false,
         mkVoice 61 2 KeyState.off true] : List Voice),
          v.currentlyPlayingNote.initialNote = (mkNote 60 KeyState.down true).initialNote →
          (([mkVoice 60 0 KeyState.down false, mkVoice 60 1 KeyState.down false,
         mkVoice 61 2 KeyState.off true] : List Voice).get ⟨i, hb⟩).noteOnTime ≤ v.noteOnTime :=
  C2_same_pitch_preference _ _ (by decide)
    ⟨mkVoice 60 0 KeyState.down false, by simp, by decide⟩

theorem protectedLowTop_fst_ne_snd {l : List (Nat × Voice)} {a b : Nat × Voice}
    (h1 : (protectedLowTop l).1 = some a) (h2 : (protectedLowTop l).2 = some b) :
    a.1 ≠ b.1 := by
  unfold protectedLowTop at h1 h2
  simp only [] at h1 h2
  by_cases hc : ((scanLowTop l none none).2).map (·.1) = ((scanLowTop l none none).1).map (·.1)
  · rw [if_pos hc] at h2
    exact Option.noConfusion h2
  · rw [if_neg hc] at h2
    intro heq
    apply hc
    rw [h1, h2]
    simp [heq]

/-- C3: `findVoiceToSteal` is a deterministic pure function of the voice
set's state — for a non-empty pool of active voices with pairwise distinct
`noteOnTime`, two invocations on equal state return the same voice — and
the returned voice is never simultaneously equal to both the computed
low-protected voice and the computed top-protected voice. -/
theorem C3_stealing_determinism (voices₁ voices₂ : List Voice) (n₁ n₂ : MPENote)
    (hne : voices₁ ≠ [])
    (hact : ∀ v ∈ voices₁, v.active = true)
    (hdist : voices₁.Pairwise fun a b => a.noteOnTime ≠ b.noteOnTime)
    (hv : voices₁ = voices₂) (hn : n₁ = n₂) :
    findVoiceToSteal voices₁ n₁ = findVoiceToSteal voices₂ n₂ ∧
    ∀ i, findVoiceToSteal voices₁ n₁ = some i →
      ¬ ((∃ a, (protectedLowTop (indexed voices₁)).1 = some a ∧ a.1 = i) ∧
         (∃ b, (protectedLowTop (indexed voices₁)).2 = some b ∧ b.1 = i)) := by
  constructor
  · rw [hv, hn]
  · rintro i _ ⟨⟨a, ha, hai⟩, ⟨b, hb, hbi⟩⟩
    exact protectedLowTop_fst_ne_snd ha hb (hai.trans hbi.symm)

/-- C3, witness: the duophonic pool of two active key-down voices holding
40 and 80, stolen for an invalid note. -/
theorem C3_stealing_determinism_witness :
    findVoiceToSteal [mkVoice 40 0 KeyState.down false, mkVoice 80 1 KeyState.down false]
        invalidNote =
      findVoiceToSteal [mkVoice 40 0 KeyState.down false, mkVoice 80 1 KeyState.down false]
        invalidNote ∧
    ∀ i, findVoiceToSteal [mkVoice 40 0 KeyState.down false, mkVoice 80 1 KeyState.down false]
        invalidNote = some i →
      ¬ ((∃ a, (protectedLowTop (indexed
            [mkVoice 40 0 KeyState.down false, mkVoice 80 1 KeyState.down false])).1
              = some a ∧ a.1 = i) ∧
         (∃ b, (protectedLowTop (indexed
            [mkVoice 40 0 KeyState.down false, mkVoice 80 1 KeyState.down false])).2
              = some b ∧ b.1 = i)) :=
  C3_stealing_determinism _ _ _ _ (by decide) (by decide) (by decide) rfl rfl

theorem firstInactive_none_iff {l : List Voice} :
    firstInactive l = none ↔ ∀ v ∈ l, v.active = true := by
  induction l with
  | nil => simp [firstInactive]
  | cons v vs ih =>
    by_cases hv : v.active = true
    · rw [firstInactive, if_pos hv, Option.map_eq_none', ih]
      constructor
      · intro h w hw
        rcases List.mem_cons.mp hw with hw | hw
        · exact hw ▸ hv
        · exact h w hw
      · intro h w hw
        exact h w (List.mem_cons_of_mem v hw)
    · rw [firstInactive, if_neg hv]
      constructor
      · intro h
        exact Option.noConfusion h
      · intro h
        exact absurd (h v (List.mem_cons_self v vs)) hv

theorem firstInactive_some {l : List Voice} {i : Nat} (h : firstInactive l = some i) :
    ∃ hb : i < l.length, (l.get ⟨i, hb⟩).active = false ∧
      ∀ j (hj : j < l.length), j < i → (l.get ⟨j, hj⟩).active = true := by
  induction l generalizing i with
  | nil => simp [firstInactive] at h
  | cons v vs ih =>
    by_cases hv : v.active = true
    · rw [firstInactive, if_pos hv] at h
      rcases hrec : firstInactive vs with _ | i'
      · rw [hrec] at h; simp at h
      · rw [hrec] at h
        simp only [Option.map_some'] at h
        obtain ⟨hb, hinact, hbefore⟩ := ih hrec
        have hii : i = i' + 1 := (Option.some.inj h).symm
        subst hii
        refine ⟨Nat.succ_lt_succ hb, by simpa using hinact, ?_⟩
        intro j hj hji
        match j with
        | 0 => simpa using hv
        | j + 1 =>
          have := hbefore j (Nat.lt_of_succ_lt_succ hj) (Nat.lt_of_succ_lt_succ hji)
          simpa using this
    · rw [firstInactive, if_neg hv] at h
      have h0 : i = 0 := by
        have := Option.some.inj h
        omega
      subst h0
      refine ⟨Nat.succ_pos _, by simpa using hv, ?_⟩
      intro j hj hji
      exact absurd hji (Nat.not_lt_zero j)

/-- C4: `findFreeVoice` returns the lowest-pool-index idle voice whenever
one exists (for either value of the stealing flag); when every voice is
active it delegates to `findVoiceToSteal` when stealing is allowed and
returns no voice otherwise; and consequently every note-start that finds
an idle voice consumes the lowest-pool-index idle voice. -/
theorem C4_first_idle (voices : List Voice) (note : MPENote) (allowSteal : Bool) :
    ((∃ i, ∃ hb : i < voices.length, (voices.get ⟨i, hb⟩).active = false) →
      ∃ i, findFreeVoice voices note allowSteal = some i ∧
        ∃ hb : i < voices.length, (voices.get ⟨i, hb⟩).active = false ∧
          ∀ j (hj : j < voices.length), j < i → (voices.get ⟨j, hj⟩).active = true) ∧
    ((∀ v ∈ voices, v.active = true) →
      findFreeVoice voices note true = findVoiceToSteal voices note ∧
      findFreeVoice voices note false = none) ∧
    (∀ s : Synth, s.voices = voices →
      ∀ i, firstInactive voices = some i → noteAdded note s = startVoice s i note) := by
  refine ⟨?_, ?_, ?_⟩
  · rintro ⟨i, hb, hidle⟩
    rcases hfi : firstInactive voices with _ | k
    · have hall := firstInactive_none_iff.mp hfi
      have hcontra := hall _ (List.get_mem voices i hb)
      rw [hidle] at hcontra
      exact Bool.noConfusion hcontra
    · obtain ⟨hkb, hkinact, hkbefore⟩ := firstInactive_some hfi
      exact ⟨k, by simp [findFreeVoice, hfi], hkb, hkinact, hkbefore⟩
  · intro hall
    have hfi : firstInactive voices = none := firstInactive_none_iff.mpr hall
    constructor <;> simp [findFreeVoice, hfi]
  · intro s hs i hfi
    unfold noteAdded findFreeVoice
    rw [hs, hfi]

/-- C4, witness: pool `[busy, idle, idle]`; index 1 is the lowest idle
index, and a note-start consumes it. -/
theorem C4_first_idle_witness :
    ((∃ i, ∃ hb : i < ([mkVoice 40 0 KeyState.down false,
          { mkVoice 50 0 KeyState.off false with active := false },
          { mkVoice 70 0 KeyState.off false with active := false }] : List Voice).length,
        (([mkVoice 40 0 KeyState.down false,
          { mkVoice 50 0 KeyState.off false with active := false },
          { mkVoice 70 0 KeyState.off false with active := false }] : List Voice).get
            ⟨i, hb⟩).active = false) →
      ∃ i, findFreeVoice [mkVoice 40 0 KeyState.down false,
          { mkVoice 50 0 KeyState.off false with active := false },
          { mkVoice 70 0 KeyState.off false with active := false }]
            (mkNote 50 KeyState.down true) false = some i ∧
        ∃ hb : i < ([mkVoice 40 0 KeyState.down false,
          { mkVoice 50 0 KeyState.off false with active := false },
          { mkVoice 70 0 KeyState.off false with active := false }] : List Voice).length,
          (([mkVoice 40 0 KeyState.down false,
          { mkVoice 50 0 KeyState.off false with active := false },
          { mkVoice 70 0 KeyState.off false with active := false }] : List Voice).get
              ⟨i, hb⟩).active = false ∧
          ∀ j (hj : j < ([mkVoice 40 0 KeyState.down false,
          { mkVoice 50 0 KeyState.off false with active := false },
          { mkVoice 70 0 KeyState.off false with active := false }] : List Voice).length),
            j < i → (([mkVoice 40 0 KeyState.down false,
          { mkVoice 50 0 KeyState.off false with active := false },
          { mkVoice 70 0 KeyState.off false with active := false }] : List Voice).get
              ⟨j, hj⟩).active = true) ∧
    ((∀ v ∈ ([mkVoice 40 0 KeyState.down false,
          { mkVoice 50 0 KeyState.off false with active := false },
          { mkVoice 70 0 KeyState.off false with active := false }] : List Voice),
        v.active = true) →
      findFreeVoice [mkVoice 40 0 KeyState.down false,
          { mkVoice 50 0 KeyState.off false with active := false },
          { mkVoice 70 0 KeyState.off false with active := false }]
        (mkNote 50 KeyState.down true) true =
        findVoiceToSteal [mkVoice 40 0 KeyState.down false,
          { mkVoice 50 0 KeyState.off false with active := false },
          { mkVoice 70 0 KeyState.off false with active := false }]
          (mkNote 50 KeyState.down true) ∧
      findFreeVoice [mkVoice 40 0 KeyState.down false,
          { mkVoice 50 0 KeyState.off false with active := false },
          { mkVoice 70 0 KeyState.off false with active := false }]
        (mkNote 50 KeyState.down true) false = none) ∧
    (∀ s : Synth, s.voices = [mkVoice 40 0 KeyState.down false,
          { mkVoice 50 0 KeyState.off false with active := false },
          { mkVoice 70 0 KeyState.off false with active := false }] →
      ∀ i, firstInactive [mkVoice 40 0 KeyState.down false,
          { mkVoice 50 0 KeyState.off false with active := false },
          { mkVoice 70 0 KeyState.off false with active := false }] = some i →
        noteAdded (mkNote 50 KeyState.down true) s =
          startVoice s i (mkNote 50 KeyState.down true)) :=
  C4_first_idle _ _ false

/-- C5: with every voice active and voice-stealing disabled, a note-start
leaves the whole engine state — every voice's state and the global
activation counter — unchanged: the note is silently dropped and no error
value is surfaced (the handler is total and returns the unchanged state). -/
theorem C5_silent_drop (s : Synth) (note : MPENote)
    (hfull : ∀ v ∈ s.voices, v.active = true)
    (hsteal : s.shouldStealVoices = false) :
    noteAdded note s = s := by
  unfold noteAdded findFreeVoice
  rw [firstInactive_none_iff.mpr hfull, hsteal]
  rfl

/-- C5, witness: a one-voice pool, fully busy, stealing disabled. -/
theorem C5_silent_drop_witness :
    noteAdded (mkNote 50 KeyState.down true)
      { voices := [mkVoice 40 0 KeyState.down false], lastNoteOnCounter := 1,
        shouldStealVoices := false, instrumentNotes := [] } =
      { voices := [mkVoice 40 0 KeyState.down false], lastNoteOnCounter := 1,
        shouldStealVoices := false, instrumentNotes := [] } :=
  C5_silent_drop _ _ (by decide) rfl

/-- C6: when the `low` and `top` protection candidates resolve to the same
voice, `top` is cleared so only that single voice stays protected; and
when every candidate is protected (only `low`/`top` remain) and the
same-pitch rule does not fire, `findVoiceToSteal` returns `top` when `top`
exists and returns `low` when only `low` exists. -/
theorem C6_protected_duophonic (voices : List Voice) (note : MPENote)
    (hpitch : note.valid = false ∨
      ∀ v ∈ voices, v.currentlyPlayingNote.initialNote ≠ note.initialNote) :
    (∀ a b, scanLowTop (indexed voices) none none = (some a, some b) → a.1 = b.1 →
        protectedLowTop (indexed voices) = (some a, none)) ∧
    ((∀ p ∈ indexed voices,
        isProtected (protectedLowTop (indexed voices)).1
          (protectedLowTop (indexed voices)).2 p = true) →
      (∀ b, (protectedLowTop (indexed voices)).2 = some b →
        findVoiceToSteal voices note = some b.1) ∧
      ((protectedLowTop (indexed voices)).2 = none →
        ∀ a, (protectedLowTop (indexed voices)).1 = some a →
          findVoiceToSteal voices note = some a.1)) := by
  have hsp : stealSamePitch (sortByTime (indexed voices)) note = none := by
    rcases hpitch with hval | hnp
    · simp [stealSamePitch, hval]
    · have hfn : (sortByTime (indexed voices)).find?
          (fun p => p.2.currentlyPlayingNote.initialNote == note.initialNote) = none := by
        refine List.find?_eq_none.mpr ?_
        intro p hp
        simp only [beq_iff_eq]
        exact hnp p.2 (snd_mem_of_mem_indexed (mem_sortByTime.mp hp))
      simp [stealSamePitch, hfn]
  refine ⟨?_, ?_⟩
  · intro a b hscan heq
    simp [protectedLowTop, hscan, heq]
  · intro hall
    have hallu : ∀ p ∈ sortByTime (indexed voices),
        isProtected (protectedLowTop (indexed voices)).1
          (protectedLowTop (indexed voices)).2 p = true :=
      fun p hp => hall p (mem_sortByTime.mp hp)
    have h2 : stealReleased (sortByTime (indexed voices))
        (protectedLowTop (indexed voices)).1 (protectedLowTop (indexed voices)).2 = none := by
      unfold stealReleased
      have hfn : (sortByTime (indexed voices)).find?
          (fun p => !isProtected (protectedLowTop (indexed voices)).1
            (protectedLowTop (indexed voices)).2 p && p.2.released) = none := by
        refine List.find?_eq_none.mpr ?_
        intro p hp
        simp [hallu p hp]
      rw [hfn]
      rfl
    have h3 : stealNoKeyDown (sortByTime (indexed voices))
        (protectedLowTop (indexed voices)).1 (protectedLowTop (indexed voices)).2 = none := by
      unfold stealNoKeyDown
      have hfn : (sortByTime (indexed voices)).find?
          (fun p => !isProtected (protectedLowTop (indexed voices)).1
              (protectedLowTop (indexed voices)).2 p
            && !(p.2.currentlyPlayingNote.keyState == KeyState.down)
            && !(p.2.currentlyPlayingNote.keyState == KeyState.downAndSustained)) = none := by
        refine List.find?_eq_none.mpr ?_
        intro p hp
        simp [hallu p hp]
      rw [hfn]
      rfl
    have h4 : stealUnprotected (sortByTime (indexed voices))
        (protectedLowTop (indexed voices)).1 (protectedLowTop (indexed voices)).2 = none := by
      unfold stealUnprotected
      have hfn : (sortByTime (indexed voices)).find?
          (fun p => !isProtected (protectedLowTop (indexed voices)).1
            (protectedLowTop (indexed voices)).2 p) = none := by
        refine List.find?_eq_none.mpr ?_
        intro p hp
        simp [hallu p hp]
      rw [hfn]
      rfl
    have hfb := findVoiceToSteal_fallback voices note hsp h2 h3 h4
    constructor
    · intro b hb
      rw [hfb, hb]
    · intro hnone a ha
      rw [hfb, hnone, ha]
      rfl

/-- C6, witness: a pool with the single active key-down voice holding 60
and no specific incoming note: `low` and `top` resolve to that voice,
`top` is cleared, everything is protected, and `low` is stolen. -/
theorem C6_protected_duophonic_witness :
    (∀ a b, scanLowTop (indexed [mkVoice 60 0 KeyState.down false]) none none
          = (some a, some b) → a.1 = b.1 →
        protectedLowTop (indexed [mkVoice 60 0 KeyState.down false]) = (some a, none)) ∧
    ((∀ p ∈ indexed [mkVoice 60 0 KeyState.down false],
        isProtected (protectedLowTop (indexed [mkVoice 60 0 KeyState.down false])).1
          (protectedLowTop (indexed [mkVoice 60 0 KeyState.down false])).2 p = true) →
      (∀ b, (protectedLowTop (indexed [mkVoice 60 0 KeyState.down false])).2 = some b →
        findVoiceToSteal [mkVoice 60 0 KeyState.down false] invalidNote = some b.1) ∧
      ((protectedLowTop (indexed [mkVoice 60 0 KeyState.down false])).2 = none →
        ∀ a, (protectedLowTop (indexed [mkVoice 60 0 KeyState.down false])).1 = some a →
          findVoiceToSteal [mkVoice 60 0 KeyState.down false] invalidNote = some a.1)) :=
  C6_protected_duophonic _ _ (Or.inl rfl)

/-- C7: `turnOffAllVoices` forces every voice's key state off and leaves
every voice inactive; it is idempotent on the observable pool state (note
snapshot and activity flags); it never changes any voice's note identity,
on the first call or on repeated calls; and each call leaves the upstream
instrument tracking no notes. -/
theorem C7_idempotent_silence (s : Synth) (allow : Bool) :
    (∀ v ∈ (turnOffAllVoices allow s).voices,
        v.currentlyPlayingNote.keyState = KeyState.off ∧ v.active = false) ∧
    (turnOffAllVoices allow (turnOffAllVoices allow s)).voices.map Voice.observable =
      (turnOffAllVoices allow s).voices.map Voice.observable ∧
    (turnOffAllVoices allow s).voices.map (fun v => v.currentlyPlayingNote.initialNote) =
      s.voices.map (fun v => v.currentlyPlayingNote.initialNote) ∧
    (turnOffAllVoices allow (turnOffAllVoices allow s)).voices.map
        (fun v => v.currentlyPlayingNote.initialNote) =
      s.voices.map (fun v => v.currentlyPlayingNote.initialNote) ∧
    (turnOffAllVoices allow s).instrumentNotes = [] ∧
    (turnOffAllVoices allow (turnOffAllVoices allow s)).instrumentNotes = [] := by
  refine ⟨?_, ?_, ?_, ?_, rfl, rfl⟩
  · intro v hv
    rw [turnOffAllVoices] at hv
    simp only [List.mem_map] at hv
    obtain ⟨w, _, hwv⟩ := hv
    rw [← hwv]
    simp [Voice.noteStopped]
  · simp only [turnOffAllVoices, List.map_map]
    refine List.map_congr_left ?_
    intro v _
    simp [Voice.noteStopped, Voice.observable]
  · simp only [turnOffAllVoices, List.map_map]
    refine List.map_congr_left ?_
    intro v _
    simp [Voice.noteStopped]
  · simp only [turnOffAllVoices, List.map_map]
    refine List.map_congr_left ?_
    intro v _
    simp [Voice.noteStopped]

/-- C8: each of the four per-note control-change handlers preserves the
pool size, updates the note snapshot and appends the corresponding hook
invocation on exactly the voices whose assigned note matches the changed
note's identity (all matches, not just the first), leaves every
non-matching voice unchanged, and touches nothing else in the engine
state. -/
theorem C8_control_change (k : CtrlKind) (note : MPENote) (s : Synth) :
    (applyCtrl k note s).voices.length = s.voices.length ∧
    (∀ i, (applyCtrl k note s).voices.get? i =
      (s.voices.get? i).map fun v =>
        if v.isCurrentlyPlayingNote note then
          { v with currentlyPlayingNote := note, hookLog := v.hookLog ++ [ctrlHook k] }
        else v) ∧
    (applyCtrl k note s).lastNoteOnCounter = s.lastNoteOnCounter ∧
    (applyCtrl k note s).shouldStealVoices = s.shouldStealVoices ∧
    (applyCtrl k note s).instrumentNotes = s.instrumentNotes := by
  cases k <;>
    exact ⟨by simp [applyCtrl, notePressureChanged, notePitchbendChanged,
        noteTimbreChanged, noteKeyStateChanged, ctrlScan],
      fun i => by simp [applyCtrl, notePressureChanged, notePitchbendChanged,
        noteTimbreChanged, noteKeyStateChanged, ctrlScan, ctrlHook, List.get?_map],
      rfl, rfl, rfl⟩

theorem noteAdded_of_firstInactive {s : Synth} {n : MPENote} {i : Nat}
    (h : firstInactive s.voices = some i) : noteAdded n s = startVoice s i n := by
  unfold noteAdded findFreeVoice
  rw [h]

theorem chain_lt_range' : ∀ (n a : Nat), List.Chain' (fun x y => x < y) (List.range' a n) := by
  intro n
  induction n with
  | zero => intro a; simp
  | succ m ih =>
    intro a
    rw [List.range'_succ]
    match m with
    | 0 => simp
    | m' + 1 =>
      rw [List.range'_succ, List.chain'_cons]
      refine ⟨Nat.lt_succ_self a, ?_⟩
      rw [← List.range'_succ]
      exact ih (a + 1)

/-- C9: across any sequence of note-starts in which every start finds an
idle voice (no stealing), the stamped activation orders are exactly the
consecutive counter values starting at the initial counter — each start
stamps the current counter and increments it — and are therefore strictly
increasing in start order. -/
theorem C9_monotonic_activation (s : Synth) (notes : List MPENote)
    (h : obtainsFreeAll s notes = true) :
    stampTrace s notes = List.range' s.lastNoteOnCounter notes.length ∧
    List.Chain' (fun x y => x < y) (stampTrace s notes) := by
  have main : ∀ (ns : List MPENote) (t : Synth), obtainsFreeAll t ns = true →
      stampTrace t ns = List.range' t.lastNoteOnCounter ns.length := by
    intro ns
    induction ns with
    | nil => intro t _; rfl
    | cons n ns ih =>
      intro t ht
      rw [obtainsFreeAll, Bool.and_eq_true] at ht
      obtain ⟨hfi, hrest⟩ := ht
      rcases hsome : firstInactive t.voices with _ | i
      · rw [hsome] at hfi
        simp at hfi
      · have hffv : findFreeVoice t.voices n t.shouldStealVoices = some i := by
          unfold findFreeVoice
          rw [hsome]
        have hcount : (noteAdded n t).lastNoteOnCounter = t.lastNoteOnCounter + 1 := by
          rw [noteAdded_of_firstInactive hsome]
          rfl
        simp only [stampTrace, hffv]
        rw [ih (noteAdded n t) hrest, hcount, List.length_cons, List.range'_succ]
  have he := main notes s h
  exact ⟨he, he ▸ chain_lt_range' notes.length s.lastNoteOnCounter⟩

/-- C9, witness: two idle voices, two note-starts, counter starting at 5:
the stamps are `[5, 6]`, strictly increasing. -/
theorem C9_monotonic_activation_witness :
    stampTrace
        { voices := [{ mkVoice 0 0 KeyState.off false with active := false },
                     { mkVoice 0 0 KeyState.off false with active := false }],
          lastNoteOnCounter := 5, shouldStealVoices := false, instrumentNotes := [] }
        [mkNote 60 KeyState.down true, mkNote 70 KeyState.down true] =
      List.range' 5 2 ∧
    List.Chain' (fun x y => x < y)
      (stampTrace
        { voices := [{ mkVoice 0 0 KeyState.off false with active := false },
                     { mkVoice 0 0 KeyState.off false with active := false }],
          lastNoteOnCounter := 5, shouldStealVoices := false, instrumentNotes := [] }
        [mkNote 60 KeyState.down true, mkNote 70 KeyState.down true]) :=
  C9_monotonic_activation _ _ (by decide)

theorem indexed_ne_nil {voices : List Voice} (h : voices ≠ []) : indexed voices ≠ [] := by
  cases voices with
  | nil => exact absurd rfl h
  | cons v vs => simp [indexed, indexedFrom]

theorem sortByTime_ne_nil {l : List (Nat × Voice)} (h : l ≠ []) : sortByTime l ≠ [] := by
  intro hnil
  have hlen := (sortByTime_perm l).length_eq
  rw [hnil] at hlen
  cases l with
  | nil => exact h rfl
  | cons p ps => simp at hlen

theorem findVoiceToSteal_isSome (voices : List Voice) (note : MPENote) (hne : voices ≠ []) :
    (findVoiceToSteal voices note).isSome = true := by
  rcases h1 : stealSamePitch (sortByTime (indexed voices)) note with _ | j
  · rcases h2 : stealReleased (sortByTime (indexed voices))
        (protectedLowTop (indexed voices)).1 (protectedLowTop (indexed voices)).2 with _ | j
    · rcases h3 : stealNoKeyDown (sortByTime (indexed voices))
          (protectedLowTop (indexed voices)).1 (protectedLowTop (indexed voices)).2 with _ | j
      · rcases h4 : stealUnprotected (sortByTime (indexed voices))
            (protectedLowTop (indexed voices)).1 (protectedLowTop (indexed voices)).2 with _ | j
        · have hfb := findVoiceToSteal_fallback voices note h1 h2 h3 h4
          rcases htp : (protectedLowTop (indexed voices)).2 with _ | b
          · have husable : sortByTime (indexed voices) ≠ [] :=
              sortByTime_ne_nil (indexed_ne_nil hne)
            rcases hus : sortByTime (indexed voices) with _ | ⟨p0, ps⟩
            · exact absurd hus husable
            · have hfindnone : (sortByTime (indexed voices)).find?
                  (fun p => !isProtected (protectedLowTop (indexed voices)).1
                    (protectedLowTop (indexed voices)).2 p) = none := by
                have h4' := h4
                unfold stealUnprotected at h4'
                exact Option.map_eq_none'.mp h4'
              have hprot := List.find?_eq_none.mp hfindnone p0
                (by rw [hus]; exact List.mem_cons_self _ _)
              have hprot' : isProtected (protectedLowTop (indexed voices)).1
                  (protectedLowTop (indexed voices)).2 p0 = true := by
                by_contra hc
                apply hprot
                simp only [Bool.not_eq_true] at hc
                simp [hc]
              rw [isProtected, htp] at hprot'
              rcases hlo : (protectedLowTop (indexed voices)).1 with _ | a
              · rw [hlo] at hprot'
                simp [sameAs] at hprot'
              · rw [hfb, htp, hlo]
                rfl
          · rw [hfb, htp]
            rfl
        · simp [findVoiceToSteal, h1, h2, h3, h4, Option.orElse]
      · simp [findVoiceToSteal, h1, h2, h3, Option.orElse]
    · simp [findVoiceToSteal, h1, h2, Option.orElse]
  · simp [findVoiceToSteal, h1, Option.orElse]

theorem findFreeVoice_steal_isSome (voices : List Voice) (note : MPENote)
    (hne : voices ≠ []) : (findFreeVoice voices note true).isSome = true := by
  rcases h : firstInactive voices with _ | i
  · unfold findFreeVoice
    rw [h]
    simpa using findVoiceToSteal_isSome voices note hne
  · unfold findFreeVoice
    rw [h]
    rfl

theorem reduceLoop_no_last_resort :
    ∀ (fuel target : Nat) (vs : List Voice), (reduceLoop target fuel vs).2 = false := by
  intro fuel
  induction fuel with
  | zero => intro target vs; rfl
  | succ f ih =>
    intro target vs
    by_cases hlen : vs.length ≤ target
    · simp only [reduceLoop, if_pos hlen]
    · have hne : vs ≠ [] := by
        intro hnil
        rw [hnil] at hlen
        exact hlen (Nat.zero_le target)
      have hsome := findFreeVoice_steal_isSome vs invalidNote hne
      rcases hffv : findFreeVoice vs invalidNote true with _ | i
      · rw [hffv] at hsome
        simp at hsome
      · simp only [reduceLoop, if_neg hlen, hffv]
        exact ih target (vs.eraseIdx i)

/-- C10: for every non-empty pool the stealing heuristic always returns
some voice — one of its priority buckets (same pitch, released, key not
held, unprotected, `top`, `low`) is always non-empty — so `findFreeVoice`
with stealing enabled never returns no-voice on a non-empty pool, and the
last-resort branch of the `reduceNumVoices` loop that drops the
earliest-inserted voice is never taken. -/
theorem C10_steal_total (voices : List Voice) (note : MPENote) (hne : voices ≠ []) :
    (findVoiceToSteal voices note).isSome = true ∧
    (findFreeVoice voices note true).isSome = true ∧
    ∀ target fuel vs, (reduceLoop target fuel vs).2 = false :=
  ⟨findVoiceToSteal_isSome voices note hne,
   findFreeVoice_steal_isSome voices note hne,
   fun target fuel vs => reduceLoop_no_last_resort fuel target vs⟩

/-- C10, witness: a fully busy single-voice pool with no specific note. -/
theorem C10_steal_total_witness :
    (findVoiceToSteal [mkVoice 60 0 KeyState.down true] invalidNote).isSome = true ∧
    (findFreeVoice [mkVoice 60 0 KeyState.down true] invalidNote true).isSome = true ∧
    ∀ target fuel vs, (reduceLoop target fuel vs).2 = false :=
  C10_steal_total _ _ (by decide)

/-- A concrete engine state with one active voice and one tracked note,
used to instantiate the lifecycle theorems. -/
def demoSynth : Synth :=
  { voices := [mkVoice 40 0 KeyState.down false], lastNoteOnCounter := 1,
    shouldStealVoices := true, instrumentNotes := [mkNote 40 KeyState.down true] }

/-- C7, witness: the all-off operation applied (twice) to a one-voice
engine with a tracked note. -/
theorem C7_idempotent_silence_witness :
    (∀ v ∈ (turnOffAllVoices false demoSynth).voices,
        v.currentlyPlayingNote.keyState = KeyState.off ∧ v.active = false) ∧
    (turnOffAllVoices false (turnOffAllVoices false demoSynth)).voices.map Voice.observable =
      (turnOffAllVoices false demoSynth).voices.map Voice.observable ∧
    (turnOffAllVoices false demoSynth).voices.map
        (fun v => v.currentlyPlayingNote.initialNote) =
      demoSynth.voices.map (fun v => v.currentlyPlayingNote.initialNote) ∧
    (turnOffAllVoices false (turnOffAllVoices false demoSynth)).voices.map
        (fun v => v.currentlyPlayingNote.initialNote) =
      demoSynth.voices.map (fun v => v.currentlyPlayingNote.initialNote) ∧
    (turnOffAllVoices false demoSynth).instrumentNotes = [] ∧
    (turnOffAllVoices false (turnOffAllVoices false demoSynth)).instrumentNotes = [] :=
  C7_idempotent_silence demoSynth false

/-- C8, witness: a pressure change for a note matching the one active
voice of the demo engine. -/
theorem C8_control_change_witness :
    (applyCtrl CtrlKind.pressure (mkNote 40 KeyState.down true) demoSynth).voices.length =
      demoSynth.voices.length ∧
    (∀ i, (applyCtrl CtrlKind.pressure (mkNote 40 KeyState.down true) demoSynth).voices.get? i =
      (demoSynth.voices.get? i).map fun v =>
        if v.isCurrentlyPlayingNote (mkNote 40 KeyState.down true) then
          { v with currentlyPlayingNote := mkNote 40 KeyState.down true,
                   hookLog := v.hookLog ++ [ctrlHook CtrlKind.pressure] }
        else v) ∧
    (applyCtrl CtrlKind.pressure (mkNote 40 KeyState.down true) demoSynth).lastNoteOnCounter =
      demoSynth.lastNoteOnCounter ∧
    (applyCtrl CtrlKind.pressure (mkNote 40 KeyState.down true) demoSynth).shouldStealVoices =
      demoSynth.shouldStealVoices ∧
    (applyCtrl CtrlKind.pressure (mkNote 40 KeyState.down true) demoSynth).instrumentNotes =
      demoSynth.instrumentNotes :=
  C8_control_change CtrlKind.pressure (mkNote 40 KeyState.down true) demoSynth

end MPE
